import Mathlib

/-!
Verification of the `simplelru` package of craumix/golang-lru.

The repository contains two near-duplicate iterations of the same LRU+TTL
engine: `src/unnamed/part_001` (with `AddWithExp`, `MoveItem`, `ExpiryForKey`,
and a purging `getOldest` scan) and `src/unnamed/part_002` (with the
`expiryBasedEvict` flag).  Both are embedded below, as `PartOne` and `PartTwo`.

Modelling conventions, shared by both embeddings:

* `time.Time` is modelled as `Nat`; the Go zero value `time.Time{}` is `0`
  (`IsZero` = `= 0`), `a.Before(b)` is `a < b`, and `time.Now()` is an explicit
  `now : Nat` parameter passed to every operation that reads the clock.
  `time.Duration` (`itemTTL`) is also a `Nat`, `0` meaning "disabled".
* The eviction callback `onEvict` is modelled by an event log `evLog`:
  every point where the Go code runs `c.onEvict(k, v)` appends `(k, v)`.
* Modelled from the spec: the doubly linked `lruList` / `entry` types used by
  both files are not part of the repository sources provided; following spec
  §2/§4.1 (RecencyList: front = most recently used, back = least recently
  used, operations `pushFront`, `moveToFront`, `remove`, `back`, `length`),
  the recency list is a Lean `List (K × V)` with the head as front and the
  last element as back.  The Go sentinel node of `container/list` is not
  modelled; iteration from the back stops at the front, per spec §4.1.
* The `items` map (spec: KeyIndex) maps each key to its list node.  By the
  spec §3 invariant "length(RecencyList) == size(KeyIndex)" (maintained by
  every operation in the source, which always updates the two together),
  `c.items[key]` is modelled as association lookup on the recency list, and
  a node is identified with its `(key, value)` pair.
* The `itemExpiries` map (spec: ExpiryTracker) is an association list
  `List (K × Nat)`; Go `delete` is erasure, Go assignment is `aset`.
-/

set_option maxHeartbeats 1000000

namespace GolangLru

variable {K : Type} {V : Type} {α : Type} {β : Type} [DecidableEq K]

/-- Association-list lookup, modelling a Go map read `m[k]` (`v, ok := m[k]`). -/
def alookup (l : List (K × α)) (k : K) : Option α :=
  (l.find? (fun p => decide (p.1 = k))).map (fun p => p.2)

/-- Association-list erasure, modelling Go `delete(m, k)`, and on the recency
list the `remove` (unlink) of the node whose key is `k`. -/
def aerase (l : List (K × α)) (k : K) : List (K × α) :=
  l.eraseP (fun p => decide (p.1 = k))

/-- Association-list write, modelling a Go map assignment `m[k] = v`. -/
def aset (l : List (K × α)) (k : K) (v : α) : List (K × α) :=
  (k, v) :: aerase l k

/-- The keys of an association list (or of the recency list) are distinct.
This is the KeyIndex invariant of spec §3: each key has at most one node. -/
def keysNodup (l : List (K × α)) : Prop :=
  (l.map Prod.fst).Nodup

instance (l : List (K × α)) : Decidable (keysNodup l) :=
  inferInstanceAs (Decidable (l.map Prod.fst).Nodup)

namespace PartOne

/-- The `LRU` struct of `src/unnamed/part_001` (without the function-valued
`onEvict` field, represented instead by the event log `evLog`). -/
structure LRU (K V : Type) where
  size : Int
  evictList : List (K × V)
  itemTTL : Nat
  itemExpiries : List (K × Nat)
  evLog : List (K × V)
deriving DecidableEq

/-- `NewLRUWithEvictTTL` of part_001: fails iff `size <= 0`. -/
def NewLRUWithEvictTTL (size : Int) (itemTTL : Nat) : Except String (LRU K V) :=
  if size ≤ 0 then Except.error "must provide a positive size"
  else Except.ok ⟨size, [], itemTTL, [], []⟩

/-- `KeyHasExpired` of part_001: an expiry is recorded and it is strictly
before `now`. -/
def KeyHasExpired (c : LRU K V) (key : K) (now : Nat) : Bool :=
  match alookup c.itemExpiries key with
  | some expiry => decide (expiry < now)
  | none => false

/-- `removeElement` of part_001: unlink the node, delete the KeyIndex and
ExpiryTracker entries, fire the callback. -/
def removeElement (c : LRU K V) (e : K × V) : LRU K V :=
  { c with
    evictList := aerase c.evictList e.1
    itemExpiries := aerase c.itemExpiries e.1
    evLog := c.evLog ++ [e] }

/-- `findExpired` of part_001: first expired entry scanning from the back. -/
def findExpired (c : LRU K V) (now : Nat) : Option (K × V) :=
  c.evictList.reverse.find? (fun kv => KeyHasExpired c kv.1 now)

/-- The scan loop of `getOldest` in part_001: walk from the back towards the
front, removing every expired entry passed over, and stop at the first
unexpired entry.  `todo` is the remaining back-to-front segment. -/
def scanOldest (now : Nat) : LRU K V → List (K × V) → LRU K V × Option (K × V)
  | c, [] => (c, none)
  | c, kv :: rest =>
    if KeyHasExpired c kv.1 now then scanOldest now (removeElement c kv) rest
    else (c, some kv)

/-- `getOldest` of part_001. -/
def getOldest (c : LRU K V) (now : Nat) (includeExpired : Bool) :
    LRU K V × Option (K × V) :=
  if 0 < c.itemTTL ∧ includeExpired then
    match findExpired c now with
    | some kv => (c, some kv)
    | none => scanOldest now c c.evictList.reverse
  else scanOldest now c c.evictList.reverse

/-- The private `removeOldest` of part_001, used on capacity overflow and by
`Resize`. -/
def removeOldest (c : LRU K V) (now : Nat) : LRU K V :=
  match getOldest c now true with
  | (c1, some kv) => removeElement c1 kv
  | (c1, none) => c1

/-- `AddWithExp` of part_001.  On an existing key: move to front, fire the
callback with the old value, overwrite the value, return `false`.  On a new
key: push front, record the expiry (explicit, else default-TTL, else none),
and evict if the list length now exceeds `size`. -/
def AddWithExp (c : LRU K V) (key : K) (value : V) (expiry : Nat) (now : Nat) :
    LRU K V × Bool :=
  match alookup c.evictList key with
  | some old =>
    ({ c with
       evictList := (key, value) :: aerase c.evictList key
       evLog := c.evLog ++ [(key, old)] }, false)
  | none =>
    let l := (key, value) :: c.evictList
    let exps :=
      if expiry ≠ 0 then aset c.itemExpiries key expiry
      else if 0 < c.itemTTL then aset c.itemExpiries key (now + c.itemTTL)
      else c.itemExpiries
    let c1 : LRU K V := { c with evictList := l, itemExpiries := exps }
    let evict : Bool := decide ((l.length : Int) > c.size)
    (if evict then removeOldest c1 now else c1, evict)

/-- `Add` of part_001: `AddWithExp` with the zero time. -/
def Add (c : LRU K V) (key : K) (value : V) (now : Nat) : LRU K V × Bool :=
  AddWithExp c key value 0 now

/-- `Get` of part_001.  The outer guard already requires the key unexpired, so
the inner expired branch (`removeElement`) is unreachable; it is kept here
exactly as in the source. -/
def Get (c : LRU K V) (key : K) (now : Nat) : LRU K V × Option V :=
  match alookup c.evictList key with
  | some v =>
    if ! KeyHasExpired c key now then
      if ! KeyHasExpired c key now then
        ({ c with evictList := (key, v) :: aerase c.evictList key }, some v)
      else (removeElement c (key, v), none)
    else (c, none)
  | none => (c, none)

/-- `Contains` of part_001: no recency update; lazily removes an expired hit. -/
def Contains (c : LRU K V) (key : K) (now : Nat) : LRU K V × Bool :=
  match alookup c.evictList key with
  | some v =>
    if ! KeyHasExpired c key now then (c, true)
    else (removeElement c (key, v), false)
  | none => (c, false)

/-- `Peek` of part_001.  The `ok` flag is the named return value and is
assigned (`=`, not `:=`) by the map lookup itself, so on a resident but
expired key the entry is removed and then the bare `return` yields the
still-unset zero `value` together with `ok = true`.  The result models the
Go named returns `(value V, ok bool)`, zero values as `default`. -/
def Peek [Inhabited V] (c : LRU K V) (key : K) (now : Nat) :
    LRU K V × V × Bool :=
  match alookup c.evictList key with
  | some v =>
    if ! KeyHasExpired c key now then (c, v, true)
    else (removeElement c (key, v), default, true)
  | none => (c, default, false)

/-- `Remove` of part_001: the `defer c.removeElement(ent)` runs on every path
out of the `if`, so a resident entry is always removed; the boolean is
computed before the removal and reports "was not yet expired". -/
def Remove (c : LRU K V) (key : K) (now : Nat) : LRU K V × Bool :=
  match alookup c.evictList key with
  | some v => (removeElement c (key, v), ! KeyHasExpired c key now)
  | none => (c, false)

/-- `RemoveOldest` of part_001 (public): `getOldest(false)` then remove. -/
def RemoveOldest (c : LRU K V) (now : Nat) : LRU K V × Option (K × V) :=
  match getOldest c now false with
  | (c1, some kv) => (removeElement c1 kv, some kv)
  | (c1, none) => (c1, none)

/-- `GetOldest` of part_001 (public): `getOldest(false)`, which may purge
expired entries from the back as a side effect. -/
def GetOldest (c : LRU K V) (now : Nat) : LRU K V × Option (K × V) :=
  getOldest c now false

/-- `Keys` of part_001: back-to-front traversal keeping unexpired keys. -/
def Keys (c : LRU K V) (now : Nat) : List K :=
  (c.evictList.reverse.filter (fun kv => ! KeyHasExpired c kv.1 now)).map Prod.fst

/-- `Len` of part_001: the number of unexpired resident entries. -/
def Len (c : LRU K V) (now : Nat) : Nat :=
  (Keys c now).length

/-- `ExpiryForKey` of part_001: the recorded expiry, or the zero time. -/
def ExpiryForKey (c : LRU K V) (key : K) : Nat :=
  (alookup c.itemExpiries key).getD 0

/-- The `for i := 0; i < diff; i++ { c.removeOldest() }` loop of `Resize`. -/
def iterRemoveOldest (c : LRU K V) (now : Nat) : Nat → LRU K V
  | 0 => c
  | n + 1 => iterRemoveOldest (removeOldest c now) now n

/-- `Resize` of part_001: evict down to the new size, then store it, with no
validation of the argument. -/
def Resize (c : LRU K V) (size : Int) (now : Nat) : LRU K V × Int :=
  let diff : Int := max ((Len c now : Int) - size) 0
  let c1 := iterRemoveOldest c now diff.toNat
  ({ c1 with size := size }, diff)

/-- `MoveItem` of part_001, returning `(dest, src, value, moved)`.  Note the
source order: `src.Remove(key)` is executed before the argument
`src.ExpiryForKey(key)` of the `AddWithExp` call is evaluated.  On an expired
source key, `Peek` purges the entry and its expiry record yet reports
`ok = true` with the zero value, so the subsequent `KeyHasExpired` check
passes and the zero value is inserted into `dest`. -/
def MoveItem [Inhabited V] (key : K) (dest src : LRU K V) (now : Nat) :
    LRU K V × LRU K V × V × Bool :=
  match Peek src key now with
  | (src1, val, true) =>
    if ! KeyHasExpired src1 key now then
      let src2 := (Remove src1 key now).1
      let dest1 := (AddWithExp dest key val (ExpiryForKey src2 key) now).1
      (dest1, src2, val, true)
    else (dest, src1, default, false)
  | (src1, _, false) => (dest, src1, default, false)

end PartOne

namespace PartTwo

variable [Inhabited K]

/-- The `LRU` struct of `src/unnamed/part_002`, with the `expiryBasedEvict`
flag (and the callback again represented by the event log `evLog`). -/
structure LRU (K V : Type) where
  size : Int
  evictList : List (K × V)
  itemTTL : Nat
  itemExpiries : List (K × Nat)
  expiryBasedEvict : Bool
  evLog : List (K × V)
deriving DecidableEq

/-- `NewLRUWithEvictTTL` of part_002: fails iff `size <= 0`. -/
def NewLRUWithEvictTTL (size : Int) (itemTTL : Nat) (expiryBasedEvict : Bool) :
    Except String (LRU K V) :=
  if size ≤ 0 then Except.error "must provide a positive size"
  else Except.ok ⟨size, [], itemTTL, [], expiryBasedEvict, []⟩

/-- `keyHasExpired` of part_002. -/
def keyHasExpired (c : LRU K V) (key : K) (now : Nat) : Bool :=
  match alookup c.itemExpiries key with
  | some expiry => decide (expiry < now)
  | none => false

/-- `removeElement` of part_002. -/
def removeElement (c : LRU K V) (e : K × V) : LRU K V :=
  { c with
    evictList := aerase c.evictList e.1
    itemExpiries := aerase c.itemExpiries e.1
    evLog := c.evLog ++ [e] }

/-- `findExpired` of part_002. -/
def findExpired (c : LRU K V) (now : Nat) : Option (K × V) :=
  c.evictList.reverse.find? (fun kv => keyHasExpired c kv.1 now)

/-- The private `removeOldest` of part_002: with the `expiryBasedEvict` flag,
prefer any already-expired entry (scanning from the back); otherwise remove
the strict LRU tail. -/
def removeOldest (c : LRU K V) (now : Nat) : LRU K V :=
  match (if c.expiryBasedEvict then findExpired c now else none) with
  | some kv => removeElement c kv
  | none =>
    match c.evictList.getLast? with
    | some kv => removeElement c kv
    | none => c

/-- `Add` of part_002.  Existing key: move to front, callback with the old
value, overwrite, return `false`.  New key: push front, record `now + TTL`
when the default TTL is positive, evict on overflow. -/
def Add (c : LRU K V) (key : K) (value : V) (now : Nat) : LRU K V × Bool :=
  match alookup c.evictList key with
  | some old =>
    ({ c with
       evictList := (key, value) :: aerase c.evictList key
       evLog := c.evLog ++ [(key, old)] }, false)
  | none =>
    let l := (key, value) :: c.evictList
    let exps :=
      if 0 < c.itemTTL then aset c.itemExpiries key (now + c.itemTTL)
      else c.itemExpiries
    let c1 : LRU K V := { c with evictList := l, itemExpiries := exps }
    let evict : Bool := decide ((l.length : Int) > c.size)
    (if evict then removeOldest c1 now else c1, evict)

/-- `Get` of part_002: no removal of an expired hit. -/
def Get (c : LRU K V) (key : K) (now : Nat) : LRU K V × Option V :=
  match alookup c.evictList key with
  | some v =>
    if ! keyHasExpired c key now then
      ({ c with evictList := (key, v) :: aerase c.evictList key }, some v)
    else (c, none)
  | none => (c, none)

/-- `Contains` of part_002: pure check, never mutates (the state component is
returned unchanged).  The `ok` flag is the named return assigned (`=`) by
the map lookup, so on a resident but expired key the `ok && !expired` guard
fails and the bare `return` yields `ok = true` anyway. -/
def Contains (c : LRU K V) (key : K) (now : Nat) : LRU K V × Bool :=
  let ok := (alookup c.evictList key).isSome
  if ok && ! keyHasExpired c key now then (c, true)
  else (c, ok)

/-- `Peek` of part_002: pure check, never mutates.  As in `Contains`, `ok` is
the named return assigned by the map lookup, so a resident but expired key
yields the still-unset zero `value` together with `ok = true`.  The result
models the Go named returns `(value V, ok bool)`, zero values as `default`. -/
def Peek [Inhabited V] (c : LRU K V) (key : K) (now : Nat) :
    LRU K V × V × Bool :=
  match alookup c.evictList key with
  | some v =>
    if ! keyHasExpired c key now then (c, v, true)
    else (c, default, true)
  | none => (c, default, false)

/-- `Remove` of part_002: a resident entry is removed on both branches; the
boolean reports "was not yet expired". -/
def Remove (c : LRU K V) (key : K) (now : Nat) : LRU K V × Bool :=
  match alookup c.evictList key with
  | some v =>
    if ! keyHasExpired c key now then (removeElement c (key, v), true)
    else (removeElement c (key, v), false)
  | none => (c, false)

/-- `RemoveOldest` of part_002 (public).  The expiry test reads the named
return variable `key`, still holding the zero value of `K` (modelled as
`default`), not the tail node's key. -/
def RemoveOldest (c : LRU K V) (now : Nat) : LRU K V × Option (K × V) :=
  match c.evictList.getLast? with
  | some kv =>
    if ! keyHasExpired c (default : K) now then (removeElement c kv, some kv)
    else (removeElement c kv, none)
  | none => (c, none)

/-- `GetOldest` of part_002: same uninitialized-`key` expiry test; never
mutates (the state component is returned unchanged). -/
def GetOldest (c : LRU K V) (now : Nat) : LRU K V × Option (K × V) :=
  match c.evictList.getLast? with
  | some kv =>
    (c, if ! keyHasExpired c (default : K) now then some kv else none)
  | none => (c, none)

/-- `Keys` of part_002. -/
def Keys (c : LRU K V) (now : Nat) : List K :=
  (c.evictList.reverse.filter (fun kv => ! keyHasExpired c kv.1 now)).map Prod.fst

/-- `Len` of part_002. -/
def Len (c : LRU K V) (now : Nat) : Nat :=
  (Keys c now).length

/-- The eviction loop of `Resize` in part_002. -/
def iterRemoveOldest (c : LRU K V) (now : Nat) : Nat → LRU K V
  | 0 => c
  | n + 1 => iterRemoveOldest (removeOldest c now) now n

/-- `Resize` of part_002: identical to part_001's. -/
def Resize (c : LRU K V) (size : Int) (now : Nat) : LRU K V × Int :=
  let diff : Int := max ((Len c now : Int) - size) 0
  let c1 := iterRemoveOldest c now diff.toNat
  ({ c1 with size := size }, diff)

end PartTwo

/-- A sequence of `AddWithExp` calls on the part_001 engine; each call is
`(key, value, expiry, now)`. -/
def runA (c : PartOne.LRU K V) : List (K × V × Nat × Nat) → PartOne.LRU K V
  | [] => c
  | q :: rest => runA (PartOne.AddWithExp c q.1 q.2.1 q.2.2.1 q.2.2.2).1 rest

/-- A sequence of `Add` calls on the part_002 engine; each call is
`(key, value, now)`. -/
def runB [Inhabited K] (c : PartTwo.LRU K V) : List (K × V × Nat) → PartTwo.LRU K V
  | [] => c
  | q :: rest => runB (PartTwo.Add c q.1 q.2.1 q.2.2).1 rest

/-! ### Association-list lemmas -/

theorem alookup_nil (k : K) : alookup ([] : List (K × α)) k = none := rfl

theorem alookup_cons (a : K × α) (l : List (K × α)) (k : K) :
    alookup (a :: l) k = if a.1 = k then some a.2 else alookup l k := by
  by_cases h : a.1 = k <;> simp [alookup, List.find?_cons, h]

theorem aerase_cons (a : K × α) (l : List (K × α)) (k : K) :
    aerase (a :: l) k = if a.1 = k then l else a :: aerase l k := by
  by_cases h : a.1 = k
  · simp [aerase, List.eraseP_cons_of_pos, h]
  · simp [aerase, List.eraseP_cons_of_neg, h]

theorem mem_of_alookup {l : List (K × α)} {k : K} {v : α}
    (h : alookup l k = some v) : (k, v) ∈ l := by
  unfold alookup at h
  cases hf : l.find? (fun p => decide (p.1 = k)) with
  | none => rw [hf] at h; simp at h
  | some p =>
    rw [hf] at h
    have hp : p.1 = k := by simpa using List.find?_some hf
    have hm : p ∈ l := List.mem_of_find?_eq_some hf
    have hv : p.2 = v := by simpa using h
    have : p = (k, v) := by
      cases p; simp_all
    rwa [this] at hm

theorem alookup_eq_none {l : List (K × α)} {k : K} :
    alookup l k = none ↔ k ∉ l.map Prod.fst := by
  unfold alookup
  constructor
  · intro h hk
    cases hf : l.find? (fun p => decide (p.1 = k)) with
    | some p => rw [hf] at h; simp at h
    | none =>
      rw [List.find?_eq_none] at hf
      obtain ⟨p, hp, hpk⟩ := List.mem_map.mp hk
      exact hf p hp (by simpa using hpk)
  · intro hk
    cases hf : l.find? (fun p => decide (p.1 = k)) with
    | none => simp
    | some p =>
      have hp : p.1 = k := by simpa using List.find?_some hf
      exact absurd (List.mem_map.mpr ⟨p, List.mem_of_find?_eq_some hf, hp⟩) hk

theorem alookup_isSome {l : List (K × α)} {k : K} :
    (alookup l k).isSome = true ↔ k ∈ l.map Prod.fst := by
  cases ho : alookup l k with
  | none => simp [alookup_eq_none.mp ho]
  | some v =>
    simp only [Option.isSome_some, true_iff]
    exact List.mem_map.mpr ⟨(k, v), mem_of_alookup ho, rfl⟩

theorem alookup_aerase {l : List (K × α)} {k k' : K} (h : k' ≠ k) :
    alookup (aerase l k) k' = alookup l k' := by
  induction l with
  | nil => rfl
  | cons a l ih =>
    rw [aerase_cons]
    by_cases ha : a.1 = k
    · rw [if_pos ha, alookup_cons, if_neg (by rw [ha]; exact fun hh => h hh.symm)]
    · rw [if_neg ha, alookup_cons, alookup_cons, ih]

theorem length_aerase_of_mem {l : List (K × α)} {k : K} {v : α}
    (h : (k, v) ∈ l) : (aerase l k).length + 1 = l.length :=
  List.length_eraseP_add_one h (by simp)

theorem aerase_sublist (l : List (K × α)) (k : K) : (aerase l k).Sublist l :=
  List.eraseP_sublist l

theorem keysNodup_aerase {l : List (K × α)} (h : keysNodup l) (k : K) :
    keysNodup (aerase l k) :=
  List.Nodup.sublist (List.Sublist.map Prod.fst (aerase_sublist l k)) h

theorem not_mem_keys_aerase {l : List (K × α)} (h : keysNodup l) (k : K) :
    k ∉ (aerase l k).map Prod.fst := by
  induction l with
  | nil => simp [aerase]
  | cons a l ih =>
    rw [aerase_cons]
    unfold keysNodup at h
    simp only [List.map_cons, List.nodup_cons] at h
    by_cases ha : a.1 = k
    · rw [if_pos ha, ← ha]; exact h.1
    · rw [if_neg ha]
      simp only [List.map_cons, List.mem_cons]
      rintro (hk | hk)
      · exact ha hk.symm
      · exact ih h.2 hk

theorem keysNodup_cons_aerase {l : List (K × α)} (h : keysNodup l) (k : K) (v : α) :
    keysNodup ((k, v) :: aerase l k) := by
  unfold keysNodup
  simp only [List.map_cons, List.nodup_cons]
  exact ⟨not_mem_keys_aerase h k, keysNodup_aerase h k⟩

theorem aerase_append_last {l : List (K × α)} {k : K} (v : α)
    (h : k ∉ l.map Prod.fst) : aerase (l ++ [(k, v)]) k = l := by
  unfold aerase
  rw [List.eraseP_append_right]
  · simp [List.eraseP_cons_of_pos]
  · intro b hb
    simp only [List.mem_map] at h
    simp only [decide_eq_true_eq]
    exact fun hbk => h ⟨b, hb, hbk⟩

theorem dropWhile_congr {l : List β} {p q : β → Bool}
    (h : ∀ x ∈ l, p x = q x) : l.dropWhile p = l.dropWhile q := by
  induction l with
  | nil => rfl
  | cons a l ih =>
    rw [List.dropWhile_cons, List.dropWhile_cons, h a (by simp)]
    by_cases hq : q a = true
    · rw [if_pos hq, if_pos hq, ih (fun x hx => h x (by simp [hx]))]
    · rw [if_neg hq, if_neg hq]

/-! ### part_001 engine lemmas -/

namespace PartOne

theorem removeElement_size (c : LRU K V) (e : K × V) :
    (removeElement c e).size = c.size := rfl

theorem removeElement_nodup {c : LRU K V} (h : keysNodup c.evictList) (e : K × V) :
    keysNodup (removeElement c e).evictList :=
  keysNodup_aerase h e.1

theorem KeyHasExpired_removeElement {c : LRU K V} {e : K × V} {k : K} (now : Nat)
    (h : k ≠ e.1) :
    KeyHasExpired (removeElement c e) k now = KeyHasExpired c k now := by
  unfold KeyHasExpired removeElement
  rw [alookup_aerase h]

theorem scanOldest_cons (now : Nat) (c : LRU K V) (kv : K × V)
    (rest : List (K × V)) :
    scanOldest now c (kv :: rest)
      = if KeyHasExpired c kv.1 now then scanOldest now (removeElement c kv) rest
        else (c, some kv) := rfl

/-- The `getOldest` scan, characterized against the initial state: it drops
(and purges) the longest expired segment at the back and returns the first
unexpired entry, if any. -/
theorem scanOldest_spec (now : Nat) (todo : List (K × V)) (c : LRU K V)
    (hnd : keysNodup todo) (hc : c.evictList = todo.reverse) :
    (scanOldest now c todo).2
      = (todo.dropWhile (fun kv => KeyHasExpired c kv.1 now)).head?
    ∧ (scanOldest now c todo).1.evictList
      = (todo.dropWhile (fun kv => KeyHasExpired c kv.1 now)).reverse
    ∧ (scanOldest now c todo).1.size = c.size := by
  induction todo generalizing c with
  | nil => exact ⟨rfl, by simpa [scanOldest] using hc, rfl⟩
  | cons kv rest ih =>
    have hkey : kv.1 ∉ rest.map Prod.fst := by
      have := hnd
      unfold keysNodup at this
      simp only [List.map_cons, List.nodup_cons] at this
      exact this.1
    have hrest : keysNodup rest := by
      have := hnd
      unfold keysNodup at this
      simp only [List.map_cons, List.nodup_cons] at this
      exact this.2
    cases hexp : KeyHasExpired c kv.1 now with
    | false =>
      rw [scanOldest_cons, if_neg (by simp [hexp])]
      rw [List.dropWhile_cons, if_neg (by simp [hexp])]
      exact ⟨rfl, by simpa using hc, rfl⟩
    | true =>
      have hstep : scanOldest now c (kv :: rest)
          = scanOldest now (removeElement c kv) rest := by
        rw [scanOldest_cons, if_pos (by simp [hexp])]
      have hc' : (removeElement c kv).evictList = rest.reverse := by
        show aerase c.evictList kv.1 = rest.reverse
        rw [hc, List.reverse_cons]
        exact aerase_append_last kv.2 (by
          rw [List.map_reverse, List.mem_reverse]
          exact hkey)
      have hcongr : ∀ x ∈ rest,
          KeyHasExpired (removeElement c kv) x.1 now = KeyHasExpired c x.1 now := by
        intro x hx
        exact KeyHasExpired_removeElement now (by
          intro hkx
          exact hkey (List.mem_map.mpr ⟨x, hx, hkx⟩))
      have hdw : rest.dropWhile (fun x => KeyHasExpired (removeElement c kv) x.1 now)
          = rest.dropWhile (fun x => KeyHasExpired c x.1 now) :=
        dropWhile_congr (fun x hx => hcongr x hx)
      have hmain := ih (removeElement c kv) hrest hc'
      rw [hstep, List.dropWhile_cons, if_pos (by simp [hexp])]
      refine ⟨?_, ?_, ?_⟩
      · rw [hmain.1, hdw]
      · rw [hmain.2.1, hdw]
      · rw [hmain.2.2]; rfl

theorem scanOldest_size (now : Nat) (todo : List (K × V)) (c : LRU K V) :
    (scanOldest now c todo).1.size = c.size := by
  induction todo generalizing c with
  | nil => rfl
  | cons kv rest ih =>
    rw [scanOldest_cons]
    cases hexp : KeyHasExpired c kv.1 now with
    | false => rw [if_neg (by simp [hexp])]
    | true =>
      rw [if_pos (by simp [hexp])]
      exact ih (removeElement c kv)

theorem scanOldest_nodup (now : Nat) (todo : List (K × V)) (c : LRU K V)
    (h : keysNodup c.evictList) :
    keysNodup (scanOldest now c todo).1.evictList := by
  induction todo generalizing c with
  | nil => exact h
  | cons kv rest ih =>
    rw [scanOldest_cons]
    cases hexp : KeyHasExpired c kv.1 now with
    | false => rw [if_neg (by simp [hexp])]; exact h
    | true =>
      rw [if_pos (by simp [hexp])]
      exact ih (removeElement c kv) (removeElement_nodup h kv)

theorem getOldest_size (c : LRU K V) (now : Nat) (b : Bool) :
    (getOldest c now b).1.size = c.size := by
  unfold getOldest
  split
  · cases findExpired c now with
    | some kv => rfl
    | none => exact scanOldest_size now c.evictList.reverse c
  · exact scanOldest_size now c.evictList.reverse c

theorem getOldest_nodup {c : LRU K V} (now : Nat) (b : Bool)
    (h : keysNodup c.evictList) :
    keysNodup (getOldest c now b).1.evictList := by
  unfold getOldest
  split
  · cases findExpired c now with
    | some kv => exact h
    | none => exact scanOldest_nodup now c.evictList.reverse c h
  · exact scanOldest_nodup now c.evictList.reverse c h

theorem keysNodup_reverse {l : List (K × V)} (h : keysNodup l) :
    keysNodup l.reverse := by
  unfold keysNodup at h ⊢
  rw [List.map_reverse, List.nodup_reverse]
  exact h

theorem getOldest_true_cases (c : LRU K V) (now : Nat) :
    (∃ kv, getOldest c now true = (c, some kv) ∧ kv ∈ c.evictList)
    ∨ getOldest c now true = scanOldest now c c.evictList.reverse := by
  unfold getOldest
  split
  · cases hf : findExpired c now with
    | some kv =>
      refine Or.inl ⟨kv, rfl, ?_⟩
      have := List.mem_of_find?_eq_some hf
      rwa [List.mem_reverse] at this
    | none => exact Or.inr rfl
  · exact Or.inr rfl

theorem getOldest_false_spec (c : LRU K V) (now : Nat)
    (hnd : keysNodup c.evictList) :
    (getOldest c now false).2
      = (c.evictList.reverse.dropWhile (fun kv => KeyHasExpired c kv.1 now)).head?
    ∧ (getOldest c now false).1.evictList
      = (c.evictList.reverse.dropWhile (fun kv => KeyHasExpired c kv.1 now)).reverse := by
  have hs := scanOldest_spec now c.evictList.reverse c (keysNodup_reverse hnd)
    (by rw [List.reverse_reverse])
  have hg : getOldest c now false = scanOldest now c c.evictList.reverse := by
    unfold getOldest
    rw [if_neg (by simp)]
  rw [hg]
  exact ⟨hs.1, hs.2.1⟩

theorem removeOldest_size (c : LRU K V) (now : Nat) :
    (removeOldest c now).size = c.size := by
  unfold removeOldest
  cases hg : getOldest c now true with
  | mk c1 o =>
    have hsz : c1.size = c.size := by
      have := getOldest_size c now true
      rw [hg] at this
      exact this
    cases o with
    | some kv => simpa [removeElement_size] using hsz
    | none => exact hsz

theorem removeOldest_nodup {c : LRU K V} (now : Nat) (h : keysNodup c.evictList) :
    keysNodup (removeOldest c now).evictList := by
  unfold removeOldest
  cases hg : getOldest c now true with
  | mk c1 o =>
    have hnd1 : keysNodup c1.evictList := by
      have := getOldest_nodup now true h
      rw [hg] at this
      exact this
    cases o with
    | some kv => exact removeElement_nodup hnd1 kv
    | none => exact hnd1

theorem removeOldest_length {c : LRU K V} (now : Nat)
    (hnd : keysNodup c.evictList) (hne : c.evictList ≠ []) :
    (removeOldest c now).evictList.length + 1 ≤ c.evictList.length := by
  rcases getOldest_true_cases c now with ⟨kv, hg, hmem⟩ | hg
  · unfold removeOldest
    rw [hg]
    show (aerase c.evictList kv.1).length + 1 ≤ c.evictList.length
    have : ((kv.1, kv.2) : K × V) ∈ c.evictList := hmem
    rw [length_aerase_of_mem this]
  · have hs := scanOldest_spec now c.evictList.reverse c (keysNodup_reverse hnd)
      (by rw [List.reverse_reverse])
    unfold removeOldest
    rw [hg]
    cases hd : c.evictList.reverse.dropWhile (fun kv => KeyHasExpired c kv.1 now) with
    | nil =>
      rw [hd] at hs
      cases hsc : scanOldest now c c.evictList.reverse with
      | mk c1 o =>
        rw [hsc] at hs
        simp only at hs
        rw [hs.1]
        show c1.evictList.length + 1 ≤ c.evictList.length
        rw [hs.2.1]
        have h1 : 1 ≤ c.evictList.length := by
          cases hl : c.evictList with
          | nil => exact absurd hl hne
          | cons a l => simp
        simpa using h1
    | cons kv t =>
      rw [hd] at hs
      cases hsc : scanOldest now c c.evictList.reverse with
      | mk c1 o =>
        rw [hsc] at hs
        simp only at hs
        rw [hs.1]
        have hkv : ((kv.1, kv.2) : K × V) ∈ c1.evictList := by
          rw [hs.2.1]
          simp
        show (aerase c1.evictList kv.1).length + 1 ≤ c.evictList.length
        rw [length_aerase_of_mem hkv, hs.2.1]
        have hsub : (kv :: t).Sublist c.evictList.reverse := by
          rw [← hd]
          exact List.dropWhile_sublist _
        have := hsub.length_le
        simpa using this

theorem AddWithExp_inv (c : LRU K V) (k : K) (v : V) (e now : Nat)
    (hnd : keysNodup c.evictList) (hlen : (c.evictList.length : Int) ≤ c.size) :
    keysNodup (AddWithExp c k v e now).1.evictList
    ∧ ((AddWithExp c k v e now).1.evictList.length : Int) ≤ c.size
    ∧ (AddWithExp c k v e now).1.size = c.size := by
  unfold AddWithExp
  cases hlk : alookup c.evictList k with
  | some old =>
    refine ⟨keysNodup_cons_aerase hnd k v, ?_, rfl⟩
    have hl : ((k, v) :: aerase c.evictList k).length = c.evictList.length := by
      rw [List.length_cons, length_aerase_of_mem (mem_of_alookup hlk)]
    show ((((k, v) :: aerase c.evictList k).length : Nat) : Int) ≤ c.size
    rw [hl]
    exact hlen
  | none =>
    have hfresh : k ∉ c.evictList.map Prod.fst := alookup_eq_none.mp hlk
    have hnd1 : keysNodup ((k, v) :: c.evictList) := by
      unfold keysNodup
      simp only [List.map_cons, List.nodup_cons]
      exact ⟨hfresh, hnd⟩
    have key : ∀ c1 : LRU K V, c1.evictList = (k, v) :: c.evictList →
        c1.size = c.size →
        keysNodup (removeOldest c1 now).evictList
        ∧ ((removeOldest c1 now).evictList.length : Int) ≤ c.size
        ∧ (removeOldest c1 now).size = c.size := by
      intro c1 h1 h2
      have hnd1' : keysNodup c1.evictList := by rw [h1]; exact hnd1
      refine ⟨removeOldest_nodup now hnd1', ?_, by rw [removeOldest_size, h2]⟩
      have hle := removeOldest_length now hnd1' (by rw [h1]; simp)
      rw [h1, List.length_cons] at hle
      have hle2 : ((removeOldest c1 now).evictList.length : Int) + 1
          ≤ (c.evictList.length : Int) + 1 := by exact_mod_cast hle
      omega
    dsimp only
    split
    case isTrue h => exact key _ rfl rfl
    case isFalse h =>
      refine ⟨hnd1, ?_, rfl⟩
      simp only [decide_eq_true_eq, not_lt] at h
      simpa using h

theorem Len_le_length (c : LRU K V) (now : Nat) :
    Len c now ≤ c.evictList.length := by
  unfold Len Keys
  rw [List.length_map]
  calc (c.evictList.reverse.filter (fun kv => ! KeyHasExpired c kv.1 now)).length
      ≤ c.evictList.reverse.length := List.length_filter_le _ _
    _ = c.evictList.length := by rw [List.length_reverse]

end PartOne

theorem runA_inv (calls : List (K × V × Nat × Nat))
    (c : PartOne.LRU K V)
    (hnd : keysNodup c.evictList) (hlen : (c.evictList.length : Int) ≤ c.size) :
    keysNodup (runA c calls).evictList
    ∧ ((runA c calls).evictList.length : Int) ≤ c.size
    ∧ (runA c calls).size = c.size := by
  induction calls generalizing c with
  | nil => exact ⟨hnd, hlen, rfl⟩
  | cons q rest ih =>
    have h := PartOne.AddWithExp_inv c q.1 q.2.1 q.2.2.1 q.2.2.2 hnd hlen
    have h2 := ih (PartOne.AddWithExp c q.1 q.2.1 q.2.2.1 q.2.2.2).1 h.1
      (by rw [h.2.2]; exact h.2.1)
    rw [runA]
    refine ⟨h2.1, ?_, ?_⟩
    · rw [← h.2.2]
      exact h2.2.1
    · rw [h2.2.2, h.2.2]

/-! ### part_002 engine lemmas -/

namespace PartTwo

variable [Inhabited K]

theorem removeElement_size_two (c : LRU K V) (e : K × V) :
    (removeElement c e).size = c.size := rfl

theorem removeOldest_size_two (c : LRU K V) (now : Nat) :
    (removeOldest c now).size = c.size := by
  unfold removeOldest
  cases (if c.expiryBasedEvict then findExpired c now else none) with
  | some kv => rfl
  | none =>
    cases c.evictList.getLast? with
    | some kv => rfl
    | none => rfl

theorem getLast?_mem {l : List (K × V)} {kv : K × V}
    (hg : l.getLast? = some kv) : kv ∈ l := by
  have hne : l ≠ [] := by
    intro h
    rw [h] at hg
    simp at hg
  rw [List.getLast?_eq_getLast l hne] at hg
  have : l.getLast hne = kv := by injection hg
  exact this ▸ List.getLast_mem hne

theorem removeOldest_length_two {c : LRU K V} (now : Nat)
    (hne : c.evictList ≠ []) :
    (removeOldest c now).evictList.length + 1 = c.evictList.length := by
  unfold removeOldest
  cases hf : (if c.expiryBasedEvict then findExpired c now else none) with
  | some kv =>
    have hkv : kv ∈ c.evictList := by
      by_cases hfl : c.expiryBasedEvict
      · rw [if_pos hfl] at hf
        have := List.mem_of_find?_eq_some hf
        rwa [List.mem_reverse] at this
      · rw [if_neg hfl] at hf
        exact absurd hf (by simp)
    exact length_aerase_of_mem hkv
  | none =>
    cases hg : c.evictList.getLast? with
    | none => exact absurd (List.getLast?_eq_none_iff.mp hg) hne
    | some kv => exact length_aerase_of_mem (getLast?_mem hg)

theorem Add_inv (c : LRU K V) (k : K) (v : V) (now : Nat)
    (hlen : (c.evictList.length : Int) ≤ c.size) :
    ((Add c k v now).1.evictList.length : Int) ≤ c.size
    ∧ (Add c k v now).1.size = c.size := by
  unfold Add
  cases hlk : alookup c.evictList k with
  | some old =>
    refine ⟨?_, rfl⟩
    have hl : ((k, v) :: aerase c.evictList k).length = c.evictList.length := by
      rw [List.length_cons, length_aerase_of_mem (mem_of_alookup hlk)]
    show ((((k, v) :: aerase c.evictList k).length : Nat) : Int) ≤ c.size
    rw [hl]
    exact hlen
  | none =>
    have key : ∀ c1 : LRU K V, c1.evictList = (k, v) :: c.evictList →
        c1.size = c.size →
        ((removeOldest c1 now).evictList.length : Int) ≤ c.size
        ∧ (removeOldest c1 now).size = c.size := by
      intro c1 h1 h2
      refine ⟨?_, by rw [removeOldest_size_two, h2]⟩
      have hle := removeOldest_length_two now (c := c1) (by rw [h1]; simp)
      rw [h1, List.length_cons] at hle
      have hle2 : ((removeOldest c1 now).evictList.length : Int) + 1
          = (c.evictList.length : Int) + 1 := by exact_mod_cast hle
      omega
    dsimp only
    split
    case isTrue h => exact key _ rfl rfl
    case isFalse h =>
      refine ⟨?_, rfl⟩
      simp only [decide_eq_true_eq, not_lt] at h
      simpa using h

theorem Add_overflow (c : LRU K V) (k : K) (v : V) (now : Nat)
    (hfresh : alookup c.evictList k = none)
    (hover : (c.evictList.length : Int) + 1 > c.size) :
    (Add c k v now).2 = true
    ∧ (Add c k v now).1.evictList.length = c.evictList.length := by
  have hev : decide (((((k, v) :: c.evictList).length : Nat) : Int) > c.size)
      = true := by
    simp only [List.length_cons, decide_eq_true_eq]
    push_cast
    omega
  have key : ∀ c1 : LRU K V, c1.evictList = (k, v) :: c.evictList →
      (removeOldest c1 now).evictList.length = c.evictList.length := by
    intro c1 h1
    have hle := removeOldest_length_two now (c := c1) (by rw [h1]; simp)
    rw [h1, List.length_cons] at hle
    omega
  refine ⟨?_, ?_⟩
  · simp only [Add, hfresh, hev]
  · simp only [Add, hfresh, hev, if_true]
    exact key _ rfl

theorem Len_le_length_two (c : LRU K V) (now : Nat) :
    Len c now ≤ c.evictList.length := by
  unfold Len Keys
  rw [List.length_map]
  calc (c.evictList.reverse.filter (fun kv => ! keyHasExpired c kv.1 now)).length
      ≤ c.evictList.reverse.length := List.length_filter_le _ _
    _ = c.evictList.length := by rw [List.length_reverse]

end PartTwo

theorem runB_inv [Inhabited K] (calls : List (K × V × Nat)) (c : PartTwo.LRU K V)
    (hlen : (c.evictList.length : Int) ≤ c.size) :
    ((runB c calls).evictList.length : Int) ≤ c.size
    ∧ (runB c calls).size = c.size := by
  induction calls generalizing c with
  | nil => exact ⟨hlen, rfl⟩
  | cons q rest ih =>
    have h := PartTwo.Add_inv c q.1 q.2.1 q.2.2 hlen
    have h2 := ih (PartTwo.Add c q.1 q.2.1 q.2.2).1 (by rw [h.2]; exact h.1)
    rw [runB]
    refine ⟨?_, ?_⟩
    · rw [← h.2]
      exact h2.1
    · rw [h2.2, h.2]

/-! ### Additional step lemmas used by the claims -/

namespace PartOne

theorem AddWithExp_overflow (c : LRU K V) (k : K) (v : V) (e now : Nat)
    (hnd : keysNodup c.evictList)
    (hfresh : alookup c.evictList k = none)
    (hover : (c.evictList.length : Int) + 1 > c.size) :
    (AddWithExp c k v e now).2 = true
    ∧ (AddWithExp c k v e now).1.evictList.length ≤ c.evictList.length := by
  have hev : decide (((((k, v) :: c.evictList).length : Nat) : Int) > c.size)
      = true := by
    simp only [List.length_cons, decide_eq_true_eq]
    push_cast
    omega
  have hnd1 : keysNodup ((k, v) :: c.evictList) := by
    unfold keysNodup
    simp only [List.map_cons, List.nodup_cons]
    exact ⟨alookup_eq_none.mp hfresh, hnd⟩
  have key : ∀ c1 : LRU K V, c1.evictList = (k, v) :: c.evictList →
      (removeOldest c1 now).evictList.length ≤ c.evictList.length := by
    intro c1 h1
    have hnd1' : keysNodup c1.evictList := by rw [h1]; exact hnd1
    have hle := removeOldest_length now hnd1' (by rw [h1]; simp)
    rw [h1, List.length_cons] at hle
    omega
  refine ⟨?_, ?_⟩
  · simp only [AddWithExp, hfresh, hev]
  · simp only [AddWithExp, hfresh, hev, if_true]
    exact key _ rfl

theorem NewLRUWithEvictTTL_ok {size : Int} {ttl : Nat} {c : LRU K V}
    (h : NewLRUWithEvictTTL size ttl = Except.ok c) :
    0 < size ∧ c = ⟨size, [], ttl, [], []⟩ := by
  unfold NewLRUWithEvictTTL at h
  by_cases hs : size ≤ 0
  · rw [if_pos hs] at h
    exact absurd h (by simp)
  · rw [if_neg hs] at h
    refine ⟨by omega, ?_⟩
    injection h with h2
    exact h2.symm

end PartOne

namespace PartTwo

variable [Inhabited K]

theorem NewLRUWithEvictTTL_ok_two {size : Int} {ttl : Nat} {flag : Bool}
    {c : LRU K V}
    (h : NewLRUWithEvictTTL size ttl flag = Except.ok c) :
    0 < size ∧ c = ⟨size, [], ttl, [], flag, []⟩ := by
  unfold NewLRUWithEvictTTL at h
  by_cases hs : size ≤ 0
  · rw [if_pos hs] at h
    exact absurd h (by simp)
  · rw [if_neg hs] at h
    refine ⟨by omega, ?_⟩
    injection h with h2
    exact h2.symm

end PartTwo

/-! ### Claim C1 -/

/-- C1 counterexample.  The claim says that when an insertion of a new key
makes the list length exceed the capacity, exactly one entry is evicted.  On
the part_001 engine with capacity 1 and no default TTL: `AddWithExp(1, 10)`
with expiry 5 at time 0, then `Add(2, 20)` at time 10 (when key 1 is expired)
returns true but removes BOTH entries — the expired key 1 purged by the
eviction scan and then the freshly inserted key 2 as the chosen victim — so
the cache is empty although the call just inserted a key and one eviction
should have left one resident entry. -/
theorem c1_counterexample :
    (PartOne.AddWithExp (⟨1, [], 0, [], []⟩ : PartOne.LRU Nat Nat) 1 10 5 0).1
      = ⟨1, [(1, 10)], 0, [(1, 5)], []⟩
    ∧ (PartOne.AddWithExp (⟨1, [(1, 10)], 0, [(1, 5)], []⟩ :
        PartOne.LRU Nat Nat) 2 20 0 10).2 = true
    ∧ (PartOne.AddWithExp (⟨1, [(1, 10)], 0, [(1, 5)], []⟩ :
        PartOne.LRU Nat Nat) 2 20 0 10).1.evictList = [] := by
  refine ⟨by decide, by decide, by decide⟩

/-- C1 (amended): for every sequence of `Add`/`AddWithExp` calls on a cache
constructed with positive capacity N, after each call the physical list
length and the unexpired count reported by `Len` never exceed N; when an
insertion of a new key makes the list length exceed N the call returns true
and at least one entry is evicted — exactly one on the part_002 engine, while
the part_001 engine may additionally purge expired entries encountered while
scanning for the victim. -/
theorem c1_capacity_amended [Inhabited K] (size : Int) (ttl : Nat) (flag : Bool)
    (cA : PartOne.LRU K V) (cB : PartTwo.LRU K V)
    (hA : PartOne.NewLRUWithEvictTTL size ttl = Except.ok cA)
    (hB : PartTwo.NewLRUWithEvictTTL size ttl flag = Except.ok cB) :
    (∀ (calls : List (K × V × Nat × Nat)) (now : Nat),
      (PartOne.Len (runA cA calls) now : Int) ≤ size
      ∧ ((runA cA calls).evictList.length : Int) ≤ size)
    ∧ (∀ (calls : List (K × V × Nat × Nat)) (k : K) (v : V) (e now : Nat),
      alookup (runA cA calls).evictList k = none →
      ((runA cA calls).evictList.length : Int) + 1 > size →
      (PartOne.AddWithExp (runA cA calls) k v e now).2 = true
      ∧ (PartOne.AddWithExp (runA cA calls) k v e now).1.evictList.length
          ≤ (runA cA calls).evictList.length)
    ∧ (∀ (calls : List (K × V × Nat)) (now : Nat),
      (PartTwo.Len (runB cB calls) now : Int) ≤ size
      ∧ ((runB cB calls).evictList.length : Int) ≤ size)
    ∧ (∀ (calls : List (K × V × Nat)) (k : K) (v : V) (now : Nat),
      alookup (runB cB calls).evictList k = none →
      ((runB cB calls).evictList.length : Int) + 1 > size →
      (PartTwo.Add (runB cB calls) k v now).2 = true
      ∧ (PartTwo.Add (runB cB calls) k v now).1.evictList.length
          = (runB cB calls).evictList.length) := by
  obtain ⟨hposA, hcA⟩ := PartOne.NewLRUWithEvictTTL_ok hA
  obtain ⟨hposB, hcB⟩ := PartTwo.NewLRUWithEvictTTL_ok_two hB
  have hA0 : keysNodup cA.evictList := by
    rw [hcA]
    exact List.nodup_nil
  have hA1 : ((cA.evictList.length : Int)) ≤ cA.size := by
    rw [hcA]
    simpa using le_of_lt hposA
  have hsizeA : cA.size = size := by rw [hcA]
  have hB1 : ((cB.evictList.length : Int)) ≤ cB.size := by
    rw [hcB]
    simpa using le_of_lt hposB
  have hsizeB : cB.size = size := by rw [hcB]
  refine ⟨?_, ?_, ?_, ?_⟩
  · intro calls now
    have hinv := runA_inv calls cA hA0 hA1
    rw [hsizeA] at hinv
    refine ⟨?_, hinv.2.1⟩
    have h1 : PartOne.Len (runA cA calls) now ≤ (runA cA calls).evictList.length :=
      PartOne.Len_le_length _ now
    have h2 : ((PartOne.Len (runA cA calls) now : Nat) : Int)
        ≤ ((runA cA calls).evictList.length : Int) := by exact_mod_cast h1
    exact le_trans h2 hinv.2.1
  · intro calls k v e now hfresh hover
    have hinv := runA_inv calls cA hA0 hA1
    have hsz : (runA cA calls).size = size := by rw [hinv.2.2, hsizeA]
    exact PartOne.AddWithExp_overflow (runA cA calls) k v e now hinv.1 hfresh
      (by rw [hsz]; exact hover)
  · intro calls now
    have hinv := runB_inv calls cB hB1
    rw [hsizeB] at hinv
    refine ⟨?_, hinv.1⟩
    have h1 : PartTwo.Len (runB cB calls) now ≤ (runB cB calls).evictList.length :=
      PartTwo.Len_le_length_two _ now
    have h2 : ((PartTwo.Len (runB cB calls) now : Nat) : Int)
        ≤ ((runB cB calls).evictList.length : Int) := by exact_mod_cast h1
    exact le_trans h2 hinv.1
  · intro calls k v now hfresh hover
    have hinv := runB_inv calls cB hB1
    have hsz : (runB cB calls).size = size := by rw [hinv.2, hsizeB]
    exact PartTwo.Add_overflow (runB cB calls) k v now hfresh
      (by rw [hsz]; exact hover)

/-- C1 witness: the amended theorem applied to a concrete capacity-1 cache
and one concrete call sequence. -/
theorem c1_capacity_amended_witness :
    PartOne.NewLRUWithEvictTTL 1 0
      = Except.ok (⟨1, [], 0, [], []⟩ : PartOne.LRU Nat Nat)
    ∧ PartTwo.NewLRUWithEvictTTL 1 0 false
      = Except.ok (⟨1, [], 0, [], false, []⟩ : PartTwo.LRU Nat Nat)
    ∧ (PartOne.Len (runA (⟨1, [], 0, [], []⟩ : PartOne.LRU Nat Nat)
        [(1, 10, 5, 0), (2, 20, 0, 10)]) 10 : Int) ≤ 1
    ∧ (PartTwo.Len (runB (⟨1, [], 0, [], false, []⟩ : PartTwo.LRU Nat Nat)
        [(1, 10, 0), (2, 20, 1)]) 1 : Int) ≤ 1 := by
  refine ⟨by rfl, by rfl, ?_, ?_⟩
  · exact ((c1_capacity_amended 1 0 false
      (⟨1, [], 0, [], []⟩ : PartOne.LRU Nat Nat)
      (⟨1, [], 0, [], false, []⟩ : PartTwo.LRU Nat Nat)
      (by rfl) (by rfl)).1 [(1, 10, 5, 0), (2, 20, 0, 10)] 10).1
  · exact ((c1_capacity_amended 1 0 false
      (⟨1, [], 0, [], []⟩ : PartOne.LRU Nat Nat)
      (⟨1, [], 0, [], false, []⟩ : PartTwo.LRU Nat Nat)
      (by rfl) (by rfl)).2.2.1 [(1, 10, 0), (2, 20, 1)] 1).1

/-! ### Claim C2 -/

/-- C2: evaluation at the failing input.  The claim (and spec §4.3) says a
`Get` on a resident but expired key removes the entry (lazy deletion).  On
both engines `Get` of the expired resident key 1 (expiry 5, now 10) returns
found=false but leaves the whole cache state — including the expired entry —
unchanged: in part_001 the `removeElement` call inside `Get` is dead code
behind the duplicated `!KeyHasExpired` guard, and part_002's `Get` has no
removal at all. -/
theorem c2_get_expired_eval :
    PartOne.KeyHasExpired
      (⟨2, [(1, 10)], 0, [(1, 5)], []⟩ : PartOne.LRU Nat Nat) 1 10 = true
    ∧ PartOne.Get (⟨2, [(1, 10)], 0, [(1, 5)], []⟩ : PartOne.LRU Nat Nat) 1 10
      = ((⟨2, [(1, 10)], 0, [(1, 5)], []⟩ : PartOne.LRU Nat Nat), none)
    ∧ PartTwo.Get
        (⟨2, [(1, 10)], 0, [(1, 5)], false, []⟩ : PartTwo.LRU Nat Nat) 1 10
      = ((⟨2, [(1, 10)], 0, [(1, 5)], false, []⟩ : PartTwo.LRU Nat Nat), none) := by
  refine ⟨by decide, by decide, by decide⟩

/-! ### Claim C3 -/

/-- C3: evaluation at the failing input.  The claim (and spec §8) says
`MoveItem` preserves the original absolute expiry.  Source cache with key 7,
value 42, expiry 100 and no default TTL; at time 10 (unexpired) `MoveItem`
moves the value and removes the key from the source, but because
`src.Remove(key)` runs before the argument `src.ExpiryForKey(key)` is
evaluated, the expiry record is already deleted, the destination records no
expiry, and `ExpiryForKey` on the destination returns the zero time instead
of 100. -/
theorem c3_move_item_eval :
    (PartOne.AddWithExp (⟨2, [], 0, [], []⟩ : PartOne.LRU Nat Nat) 7 42 100 0).1
      = ⟨2, [(7, 42)], 0, [(7, 100)], []⟩
    ∧ PartOne.ExpiryForKey
        (⟨2, [(7, 42)], 0, [(7, 100)], []⟩ : PartOne.LRU Nat Nat) 7 = 100
    ∧ PartOne.MoveItem 7 (⟨2, [], 0, [], []⟩ : PartOne.LRU Nat Nat)
        (⟨2, [(7, 42)], 0, [(7, 100)], []⟩ : PartOne.LRU Nat Nat) 10
      = (⟨2, [(7, 42)], 0, [], []⟩, ⟨2, [], 0, [], [(7, 42)]⟩, 42, true)
    ∧ PartOne.ExpiryForKey
        (⟨2, [(7, 42)], 0, [], []⟩ : PartOne.LRU Nat Nat) 7 = 0 := by
  refine ⟨by decide, by decide, by decide, by decide⟩

/-! ### Claim C4 -/

/-- C4 counterexample.  The claim says the public `RemoveOldest` applies the
expiry-priority policy when the flag is enabled.  Concrete part_002 cache with
`expiryBasedEvict = true`, key 1 expired (expiry 5 < now 6) at the front and
key 2 unexpired (expiry 6) at the LRU tail: `RemoveOldest` removes and
returns the unexpired tail (2, 20) and leaves the expired key 1 resident,
instead of removing the expired entry as the claim requires. -/
theorem c4_counterexample :
    (⟨3, [(1, 11), (2, 20)], 5, [(2, 6), (1, 5)], true, [(1, 10)]⟩ :
        PartTwo.LRU Nat Nat).expiryBasedEvict = true
    ∧ PartTwo.keyHasExpired
        (⟨3, [(1, 11), (2, 20)], 5, [(2, 6), (1, 5)], true, [(1, 10)]⟩ :
          PartTwo.LRU Nat Nat) 1 6 = true
    ∧ PartTwo.keyHasExpired
        (⟨3, [(1, 11), (2, 20)], 5, [(2, 6), (1, 5)], true, [(1, 10)]⟩ :
          PartTwo.LRU Nat Nat) 2 6 = false
    ∧ (PartTwo.RemoveOldest
        (⟨3, [(1, 11), (2, 20)], 5, [(2, 6), (1, 5)], true, [(1, 10)]⟩ :
          PartTwo.LRU Nat Nat) 6).2 = some (2, 20)
    ∧ (PartTwo.RemoveOldest
        (⟨3, [(1, 11), (2, 20)], 5, [(2, 6), (1, 5)], true, [(1, 10)]⟩ :
          PartTwo.LRU Nat Nat) 6).1.evictList = [(1, 11)] := by
  refine ⟨by decide, by decide, by decide, by decide, by decide⟩

/-- C4 (amended): the public `RemoveOldest` of part_002 does not apply the
§4.3 eviction policy (only the private capacity-overflow helper does): it
always removes the strict LRU tail when the cache is non-empty, regardless of
the expiry-priority flag; and its found result is `some` exactly when the
cache is non-empty and the zero-value key does not currently have an elapsed
expiry record — the expiry check mistakenly uses the uninitialized return
variable, so found can be `none` on a non-empty cache. -/
theorem c4_remove_oldest_amended [Inhabited K] (c : PartTwo.LRU K V) (now : Nat)
    (hnd : keysNodup c.evictList) :
    (PartTwo.RemoveOldest c now).1.evictList = c.evictList.dropLast
    ∧ (PartTwo.RemoveOldest c now).2
      = (if PartTwo.keyHasExpired c default now = true then none
         else c.evictList.getLast?) := by
  cases hg : c.evictList.getLast? with
  | none =>
    have hnil : c.evictList = [] := List.getLast?_eq_none_iff.mp hg
    refine ⟨?_, ?_⟩
    · simp [PartTwo.RemoveOldest, hg, hnil]
    · simp [PartTwo.RemoveOldest, hg]
  | some kv =>
    have hne : c.evictList ≠ [] := by
      intro h
      rw [h] at hg
      simp at hg
    have hlast : c.evictList.getLast hne = kv := by
      rw [List.getLast?_eq_getLast c.evictList hne] at hg
      injection hg
    have hsplit : c.evictList.dropLast ++ [kv] = c.evictList := by
      rw [← hlast]
      exact List.dropLast_concat_getLast hne
    have hkey : kv.1 ∉ c.evictList.dropLast.map Prod.fst := by
      have hnd2 : (c.evictList.dropLast.map Prod.fst ++ [kv.1]).Nodup := by
        have h0 : ((c.evictList.dropLast ++ [kv]).map Prod.fst).Nodup := by
          rw [hsplit]
          exact hnd
        simpa using h0
      have h3 := List.nodup_append.mp hnd2
      intro hmem
      exact h3.2.2 hmem (by simp)
    have herase : aerase c.evictList kv.1 = c.evictList.dropLast := by
      conv =>
        lhs
        rw [← hsplit]
      exact aerase_append_last kv.2 hkey
    cases hexp : PartTwo.keyHasExpired c (default : K) now with
    | false =>
      refine ⟨?_, ?_⟩
      · simp [PartTwo.RemoveOldest, PartTwo.removeElement, hg, hexp, herase]
      · simp [PartTwo.RemoveOldest, hg, hexp]
    | true =>
      refine ⟨?_, ?_⟩
      · simp [PartTwo.RemoveOldest, PartTwo.removeElement, hg, hexp, herase]
      · simp [PartTwo.RemoveOldest, hg, hexp]

/-- C4 witness: the amended theorem applied to the concrete cache of the
counterexample. -/
theorem c4_remove_oldest_amended_witness :
    keysNodup (⟨3, [(1, 11), (2, 20)], 5, [(2, 6), (1, 5)], true, [(1, 10)]⟩ :
        PartTwo.LRU Nat Nat).evictList
    ∧ (PartTwo.RemoveOldest
        (⟨3, [(1, 11), (2, 20)], 5, [(2, 6), (1, 5)], true, [(1, 10)]⟩ :
          PartTwo.LRU Nat Nat) 6).1.evictList
      = (⟨3, [(1, 11), (2, 20)], 5, [(2, 6), (1, 5)], true, [(1, 10)]⟩ :
          PartTwo.LRU Nat Nat).evictList.dropLast :=
  ⟨by decide,
    (c4_remove_oldest_amended
      (⟨3, [(1, 11), (2, 20)], 5, [(2, 6), (1, 5)], true, [(1, 10)]⟩ :
        PartTwo.LRU Nat Nat) 6 (by decide)).1⟩

/-! ### Claim C5 -/

/-- C5 counterexample.  The claim says `GetOldest` returns found=true whenever
the cache is non-empty.  On part_002 with the single resident key 0 (the zero
value of the key type) carrying expiry 5, at time 10 `GetOldest` returns
`none` although the cache is non-empty, because the expiry check reads the
uninitialized return variable, which happens to equal the resident key 0. -/
theorem c5_counterexample :
    (⟨1, [(0, 9)], 5, [(0, 5)], false, []⟩ :
        PartTwo.LRU Nat Nat).evictList ≠ []
    ∧ PartTwo.GetOldest
        (⟨1, [(0, 9)], 5, [(0, 5)], false, []⟩ : PartTwo.LRU Nat Nat) 10
      = ((⟨1, [(0, 9)], 5, [(0, 5)], false, []⟩ : PartTwo.LRU Nat Nat), none) := by
  refine ⟨by decide, by decide⟩

/-- C5 (amended): part_002's `GetOldest` leaves the cache state unchanged and
returns the strict LRU tail's key/value, but its found result is `some`
exactly when the cache is non-empty and the zero-value key does not currently
have an elapsed expiry record (the check uses the uninitialized return
variable), so found can be `none` on a non-empty cache; part_001's
`GetOldest` is not read-only: it purges the expired entries at the back of
the list as a side effect and returns the first unexpired entry from the
back, with found=`none` exactly when no unexpired entry exists. -/
theorem c5_get_oldest_amended [Inhabited K] (cA : PartOne.LRU K V)
    (cB : PartTwo.LRU K V) (now : Nat) (hnd : keysNodup cA.evictList) :
    ((PartOne.GetOldest cA now).2
      = (cA.evictList.reverse.dropWhile
          (fun kv => PartOne.KeyHasExpired cA kv.1 now)).head?
     ∧ (PartOne.GetOldest cA now).1.evictList
      = (cA.evictList.reverse.dropWhile
          (fun kv => PartOne.KeyHasExpired cA kv.1 now)).reverse)
    ∧ ((PartTwo.GetOldest cB now).1 = cB
     ∧ (PartTwo.GetOldest cB now).2
      = (if PartTwo.keyHasExpired cB default now = true then none
         else cB.evictList.getLast?)) := by
  refine ⟨PartOne.getOldest_false_spec cA now hnd, ?_⟩
  cases hg : cB.evictList.getLast? with
  | none =>
    refine ⟨?_, ?_⟩
    · simp [PartTwo.GetOldest, hg]
    · simp [PartTwo.GetOldest, hg]
  | some kv =>
    cases hexp : PartTwo.keyHasExpired cB (default : K) now with
    | false =>
      refine ⟨?_, ?_⟩
      · simp [PartTwo.GetOldest, hg, hexp]
      · simp [PartTwo.GetOldest, hg, hexp]
    | true =>
      refine ⟨?_, ?_⟩
      · simp [PartTwo.GetOldest, hg, hexp]
      · simp [PartTwo.GetOldest, hg, hexp]

/-- C5 witness: the amended theorem applied to concrete caches. -/
theorem c5_get_oldest_amended_witness :
    keysNodup (⟨2, [(3, 9)], 5, [(3, 5)], []⟩ : PartOne.LRU Nat Nat).evictList
    ∧ (PartTwo.GetOldest
        (⟨1, [(0, 9)], 5, [(0, 5)], false, []⟩ : PartTwo.LRU Nat Nat) 10).1
      = (⟨1, [(0, 9)], 5, [(0, 5)], false, []⟩ : PartTwo.LRU Nat Nat) :=
  ⟨by decide,
    ((c5_get_oldest_amended (⟨2, [(3, 9)], 5, [(3, 5)], []⟩ : PartOne.LRU Nat Nat)
      (⟨1, [(0, 9)], 5, [(0, 5)], false, []⟩ : PartTwo.LRU Nat Nat) 10
      (by decide)).2).1⟩

/-! ### Claim C6 -/

/-- C6: on both engines, `Add`/`AddWithExp` on an already-present key moves
its node to the front of the recency list (preserving the relative order of
the other entries), fires the eviction callback with the key and the old
stored value, replaces the stored value, leaves the expiry records, the
capacity and the number of entries unchanged, and returns false. -/
theorem c6_add_existing [Inhabited K] (cA : PartOne.LRU K V)
    (cB : PartTwo.LRU K V) (k : K) (vA vB wA wB : V) (e now : Nat) :
    (alookup cA.evictList k = some wA →
      (PartOne.AddWithExp cA k vA e now).2 = false
      ∧ (PartOne.AddWithExp cA k vA e now).1.evictList
          = (k, vA) :: aerase cA.evictList k
      ∧ (PartOne.AddWithExp cA k vA e now).1.evictList.length
          = cA.evictList.length
      ∧ (PartOne.AddWithExp cA k vA e now).1.evLog = cA.evLog ++ [(k, wA)]
      ∧ (PartOne.AddWithExp cA k vA e now).1.itemExpiries = cA.itemExpiries
      ∧ (PartOne.AddWithExp cA k vA e now).1.size = cA.size)
    ∧ (alookup cB.evictList k = some wB →
      (PartTwo.Add cB k vB now).2 = false
      ∧ (PartTwo.Add cB k vB now).1.evictList = (k, vB) :: aerase cB.evictList k
      ∧ (PartTwo.Add cB k vB now).1.evictList.length = cB.evictList.length
      ∧ (PartTwo.Add cB k vB now).1.evLog = cB.evLog ++ [(k, wB)]
      ∧ (PartTwo.Add cB k vB now).1.itemExpiries = cB.itemExpiries
      ∧ (PartTwo.Add cB k vB now).1.size = cB.size) := by
  constructor
  · intro h
    refine ⟨?_, ?_, ?_, ?_, ?_, ?_⟩ <;>
      simp [PartOne.AddWithExp, h, length_aerase_of_mem (mem_of_alookup h)]
  · intro h
    refine ⟨?_, ?_, ?_, ?_, ?_, ?_⟩ <;>
      simp [PartTwo.Add, h, length_aerase_of_mem (mem_of_alookup h)]

/-- C6 witness: the theorem applied to concrete caches holding key 1. -/
theorem c6_add_existing_witness :
    alookup (⟨2, [(1, 10)], 0, [], []⟩ : PartOne.LRU Nat Nat).evictList 1
      = some 10
    ∧ alookup (⟨2, [(1, 10)], 0, [], false, []⟩ :
        PartTwo.LRU Nat Nat).evictList 1 = some 10
    ∧ (PartOne.AddWithExp (⟨2, [(1, 10)], 0, [], []⟩ :
        PartOne.LRU Nat Nat) 1 99 0 0).2 = false
    ∧ (PartTwo.Add (⟨2, [(1, 10)], 0, [], false, []⟩ :
        PartTwo.LRU Nat Nat) 1 99 0).2 = false := by
  refine ⟨by decide, by decide, ?_, ?_⟩
  · exact ((c6_add_existing (⟨2, [(1, 10)], 0, [], []⟩ : PartOne.LRU Nat Nat)
      (⟨2, [(1, 10)], 0, [], false, []⟩ : PartTwo.LRU Nat Nat)
      1 99 99 10 10 0 0).1 (by decide)).1
  · exact ((c6_add_existing (⟨2, [(1, 10)], 0, [], []⟩ : PartOne.LRU Nat Nat)
      (⟨2, [(1, 10)], 0, [], false, []⟩ : PartTwo.LRU Nat Nat)
      1 99 99 10 10 0 0).2 (by decide)).1

/-! ### Claim C7 -/

/-- C7: on both engines, `Remove` of a resident key unconditionally removes
the entry (unlinking its node, deleting its key-index entry and its expiry
record, and firing the callback) and returns true exactly when the entry was
not yet expired at removal time; `Remove` of an absent key returns false and
changes nothing. -/
theorem c7_remove [Inhabited K] (cA : PartOne.LRU K V) (cB : PartTwo.LRU K V)
    (k : K) (vA vB : V) (now : Nat) :
    (alookup cA.evictList k = some vA →
      (PartOne.Remove cA k now).1.evictList = aerase cA.evictList k
      ∧ (PartOne.Remove cA k now).1.itemExpiries = aerase cA.itemExpiries k
      ∧ (PartOne.Remove cA k now).1.evLog = cA.evLog ++ [(k, vA)]
      ∧ ((PartOne.Remove cA k now).2 = true
          ↔ PartOne.KeyHasExpired cA k now = false))
    ∧ (alookup cA.evictList k = none → PartOne.Remove cA k now = (cA, false))
    ∧ (alookup cB.evictList k = some vB →
      (PartTwo.Remove cB k now).1.evictList = aerase cB.evictList k
      ∧ (PartTwo.Remove cB k now).1.itemExpiries = aerase cB.itemExpiries k
      ∧ (PartTwo.Remove cB k now).1.evLog = cB.evLog ++ [(k, vB)]
      ∧ ((PartTwo.Remove cB k now).2 = true
          ↔ PartTwo.keyHasExpired cB k now = false))
    ∧ (alookup cB.evictList k = none → PartTwo.Remove cB k now = (cB, false)) := by
  refine ⟨?_, ?_, ?_, ?_⟩
  · intro h
    refine ⟨?_, ?_, ?_, ?_⟩ <;>
      simp [PartOne.Remove, PartOne.removeElement, h]
  · intro h
    simp [PartOne.Remove, h]
  · intro h
    cases hexp : PartTwo.keyHasExpired cB k now with
    | false =>
      refine ⟨?_, ?_, ?_, ?_⟩ <;>
        simp [PartTwo.Remove, PartTwo.removeElement, h, hexp]
    | true =>
      refine ⟨?_, ?_, ?_, ?_⟩ <;>
        simp [PartTwo.Remove, PartTwo.removeElement, h, hexp]
  · intro h
    simp [PartTwo.Remove, h]

/-- C7 witness: the theorem applied to concrete caches, one resident
unexpired key and one absent key. -/
theorem c7_remove_witness :
    alookup (⟨2, [(1, 10)], 0, [(1, 5)], []⟩ :
        PartOne.LRU Nat Nat).evictList 1 = some 10
    ∧ alookup (⟨2, [(1, 10)], 0, [(1, 5)], false, []⟩ :
        PartTwo.LRU Nat Nat).evictList 9 = none
    ∧ (PartOne.Remove (⟨2, [(1, 10)], 0, [(1, 5)], []⟩ :
        PartOne.LRU Nat Nat) 1 3).1.evictList = aerase [(1, 10)] 1
    ∧ PartTwo.Remove (⟨2, [(1, 10)], 0, [(1, 5)], false, []⟩ :
        PartTwo.LRU Nat Nat) 9 3
      = ((⟨2, [(1, 10)], 0, [(1, 5)], false, []⟩ : PartTwo.LRU Nat Nat), false) := by
  refine ⟨by decide, by decide, ?_, ?_⟩
  · exact ((c7_remove (⟨2, [(1, 10)], 0, [(1, 5)], []⟩ : PartOne.LRU Nat Nat)
      (⟨2, [(1, 10)], 0, [(1, 5)], false, []⟩ : PartTwo.LRU Nat Nat)
      1 10 10 3).1 (by decide)).1
  · exact (c7_remove (⟨2, [(1, 10)], 0, [(1, 5)], []⟩ : PartOne.LRU Nat Nat)
      (⟨2, [(1, 10)], 0, [(1, 5)], false, []⟩ : PartTwo.LRU Nat Nat)
      9 10 10 3).2.2.2 (by decide)

/-! ### Claim C8 -/

/-- C8 counterexample.  The claim says `Contains`/`Peek` return true exactly
when the key is resident and unexpired, and lazily remove a resident expired
entry.  On the part_002 engine with key 1 resident but expired (expiry 5,
now 10), `ok` is the named return already assigned by the map lookup, so
`Contains` returns true, `Peek` returns the zero value with found=true, and
neither removes anything: the state is returned unchanged. -/
theorem c8_counterexample :
    PartTwo.keyHasExpired
      (⟨2, [(1, 9)], 5, [(1, 5)], false, []⟩ : PartTwo.LRU Nat Nat) 1 10 = true
    ∧ PartTwo.Contains
        (⟨2, [(1, 9)], 5, [(1, 5)], false, []⟩ : PartTwo.LRU Nat Nat) 1 10
      = ((⟨2, [(1, 9)], 5, [(1, 5)], false, []⟩ : PartTwo.LRU Nat Nat), true)
    ∧ PartTwo.Peek
        (⟨2, [(1, 9)], 5, [(1, 5)], false, []⟩ : PartTwo.LRU Nat Nat) 1 10
      = ((⟨2, [(1, 9)], 5, [(1, 5)], false, []⟩ : PartTwo.LRU Nat Nat), 0, true) := by
  refine ⟨by decide, by decide, by decide⟩

/-- C8 (amended): `Contains` and `Peek` never reorder the recency list, and
behave as follows.  part_001's `Contains` returns true exactly when the key
is resident and unexpired, lazily removing a resident expired entry before
returning false.  part_001's `Peek` also lazily removes a resident expired
entry, but then returns the zero value with found=true, because the found
flag is the named return already set by the key lookup.  part_002's
`Contains` and `Peek` are pure reads returning found=true exactly when the
key is resident, expired or not; on a resident expired key `Peek` returns
the zero value with found=true and the entry stays resident. -/
theorem c8_contains_peek_amended [Inhabited K] [Inhabited V]
    (cA : PartOne.LRU K V) (cB : PartTwo.LRU K V) (k : K) (vA vB : V)
    (now : Nat) :
    (alookup cA.evictList k = some vA →
      PartOne.KeyHasExpired cA k now = false →
      PartOne.Contains cA k now = (cA, true)
      ∧ PartOne.Peek cA k now = (cA, vA, true))
    ∧ (alookup cA.evictList k = some vA →
      PartOne.KeyHasExpired cA k now = true →
      (PartOne.Contains cA k now).2 = false
      ∧ (PartOne.Contains cA k now).1.evictList = aerase cA.evictList k
      ∧ (PartOne.Contains cA k now).1.itemExpiries = aerase cA.itemExpiries k
      ∧ (PartOne.Peek cA k now).2 = ((default : V), true)
      ∧ (PartOne.Peek cA k now).1.evictList = aerase cA.evictList k
      ∧ (PartOne.Peek cA k now).1.itemExpiries = aerase cA.itemExpiries k)
    ∧ (alookup cA.evictList k = none →
      PartOne.Contains cA k now = (cA, false)
      ∧ PartOne.Peek cA k now = (cA, default, false))
    ∧ ((PartTwo.Contains cB k now).1 = cB ∧ (PartTwo.Peek cB k now).1 = cB)
    ∧ ((PartTwo.Contains cB k now).2 = (alookup cB.evictList k).isSome)
    ∧ (alookup cB.evictList k = some vB →
      (PartTwo.Peek cB k now).2
        = (if PartTwo.keyHasExpired cB k now = true then ((default : V), true)
           else (vB, true)))
    ∧ (alookup cB.evictList k = none →
      PartTwo.Peek cB k now = (cB, default, false)) := by
  refine ⟨?_, ?_, ?_, ⟨?_, ?_⟩, ?_, ?_, ?_⟩
  · intro h hexp
    constructor <;> simp [PartOne.Contains, PartOne.Peek, h, hexp]
  · intro h hexp
    refine ⟨?_, ?_, ?_, ?_, ?_, ?_⟩ <;>
      simp [PartOne.Contains, PartOne.Peek, PartOne.removeElement, h, hexp]
  · intro h
    constructor <;> simp [PartOne.Contains, PartOne.Peek, h]
  · unfold PartTwo.Contains
    dsimp only
    split <;> rfl
  · cases h : alookup cB.evictList k with
    | none => simp [PartTwo.Peek, h]
    | some v =>
      simp only [PartTwo.Peek, h]
      split <;> rfl
  · unfold PartTwo.Contains
    dsimp only
    split
    case isTrue h' =>
      rw [Bool.and_eq_true] at h'
      exact h'.1.symm
    case isFalse h' => rfl
  · intro h
    cases hexp : PartTwo.keyHasExpired cB k now with
    | false => simp [PartTwo.Peek, h, hexp]
    | true => simp [PartTwo.Peek, h, hexp]
  · intro h
    simp [PartTwo.Peek, h]

/-- C8 witness: the amended theorem applied to concrete caches, an unexpired
hit on part_001 and an expired resident hit of part_002's `Peek`. -/
theorem c8_contains_peek_amended_witness :
    alookup (⟨2, [(1, 9)], 5, [(1, 5)], []⟩ :
        PartOne.LRU Nat Nat).evictList 1 = some 9
    ∧ PartOne.KeyHasExpired
        (⟨2, [(1, 9)], 5, [(1, 5)], []⟩ : PartOne.LRU Nat Nat) 1 3 = false
    ∧ PartOne.Contains (⟨2, [(1, 9)], 5, [(1, 5)], []⟩ :
        PartOne.LRU Nat Nat) 1 3
      = ((⟨2, [(1, 9)], 5, [(1, 5)], []⟩ : PartOne.LRU Nat Nat), true)
    ∧ (PartTwo.Peek (⟨2, [(1, 9)], 5, [(1, 5)], false, []⟩ :
        PartTwo.LRU Nat Nat) 1 10).2 = (0, true) := by
  refine ⟨by decide, by decide, ?_, ?_⟩
  · exact ((c8_contains_peek_amended
      (⟨2, [(1, 9)], 5, [(1, 5)], []⟩ : PartOne.LRU Nat Nat)
      (⟨2, [(1, 9)], 5, [(1, 5)], false, []⟩ : PartTwo.LRU Nat Nat)
      1 9 9 3).1 (by decide) (by decide)).1
  · have h := (c8_contains_peek_amended
      (⟨2, [(1, 9)], 5, [(1, 5)], []⟩ : PartOne.LRU Nat Nat)
      (⟨2, [(1, 9)], 5, [(1, 5)], false, []⟩ : PartTwo.LRU Nat Nat)
      1 9 9 10).2.2.2.2.2.1 (by decide)
    rw [h]
    decide

/-! ### Claim C9 -/

/-- C9: on both engines construction fails with the invalid-configuration
error exactly when the requested capacity is at most 0 (and then no instance
is produced), and succeeds for every positive capacity, yielding the empty
cache with the requested parameters; every other operation of the embedding
is a total function whose absence/expiry/eviction outcomes are reported
through boolean or option results. -/
theorem c9_constructor [Inhabited K] (size : Int) (ttl : Nat) (flag : Bool) :
    ((∃ c : PartOne.LRU K V, PartOne.NewLRUWithEvictTTL size ttl = Except.ok c)
      ↔ 0 < size)
    ∧ (∀ c : PartOne.LRU K V,
        PartOne.NewLRUWithEvictTTL size ttl = Except.ok c →
        c.size = size ∧ c.evictList = [] ∧ c.itemTTL = ttl
        ∧ c.itemExpiries = [] ∧ c.evLog = [])
    ∧ (size ≤ 0 → PartOne.NewLRUWithEvictTTL (K := K) (V := V) size ttl
        = Except.error "must provide a positive size")
    ∧ ((∃ c : PartTwo.LRU K V,
        PartTwo.NewLRUWithEvictTTL size ttl flag = Except.ok c) ↔ 0 < size)
    ∧ (∀ c : PartTwo.LRU K V,
        PartTwo.NewLRUWithEvictTTL size ttl flag = Except.ok c →
        c.size = size ∧ c.evictList = [] ∧ c.itemTTL = ttl
        ∧ c.itemExpiries = [] ∧ c.expiryBasedEvict = flag ∧ c.evLog = [])
    ∧ (size ≤ 0 → PartTwo.NewLRUWithEvictTTL (K := K) (V := V) size ttl flag
        = Except.error "must provide a positive size") := by
  refine ⟨?_, ?_, ?_, ?_, ?_, ?_⟩
  · constructor
    · rintro ⟨c, hc⟩
      exact (PartOne.NewLRUWithEvictTTL_ok hc).1
    · intro h
      exact ⟨⟨size, [], ttl, [], []⟩, by
        unfold PartOne.NewLRUWithEvictTTL
        rw [if_neg (by omega)]⟩
  · intro c hc
    obtain ⟨-, rfl⟩ := PartOne.NewLRUWithEvictTTL_ok hc
    exact ⟨rfl, rfl, rfl, rfl, rfl⟩
  · intro hs
    unfold PartOne.NewLRUWithEvictTTL
    rw [if_pos hs]
  · constructor
    · rintro ⟨c, hc⟩
      exact (PartTwo.NewLRUWithEvictTTL_ok_two hc).1
    · intro h
      exact ⟨⟨size, [], ttl, [], flag, []⟩, by
        unfold PartTwo.NewLRUWithEvictTTL
        rw [if_neg (by omega)]⟩
  · intro c hc
    obtain ⟨-, rfl⟩ := PartTwo.NewLRUWithEvictTTL_ok_two hc
    exact ⟨rfl, rfl, rfl, rfl, rfl, rfl⟩
  · intro hs
    unfold PartTwo.NewLRUWithEvictTTL
    rw [if_pos hs]

/-- C9 witness: the theorem applied at capacity 1 (success) and capacity 0
(error). -/
theorem c9_constructor_witness :
    (∃ c : PartOne.LRU Nat Nat, PartOne.NewLRUWithEvictTTL 1 0 = Except.ok c)
    ∧ PartTwo.NewLRUWithEvictTTL (K := Nat) (V := Nat) 0 5 true
      = Except.error "must provide a positive size" :=
  ⟨(c9_constructor 1 0 false).1.mpr (by decide),
    (c9_constructor 0 5 true).2.2.2.2.2 (by decide)⟩

/-! ### Claim C10 -/

/-- C10: `Resize` performs no validation — for every integer argument,
including zero and negative values, it succeeds and stores the argument as
the new capacity (returning the clamped eviction count) — and once the
stored capacity is non-positive, every insertion of a new key reports an
eviction. -/
theorem c10_resize_unchecked [Inhabited K] (cA : PartOne.LRU K V)
    (cB : PartTwo.LRU K V) (n : Int) (k : K) (vA vB : V) (e now : Nat) :
    (PartOne.Resize cA n now).1.size = n
    ∧ (PartOne.Resize cA n now).2 = max ((PartOne.Len cA now : Int) - n) 0
    ∧ (PartTwo.Resize cB n now).1.size = n
    ∧ (PartTwo.Resize cB n now).2 = max ((PartTwo.Len cB now : Int) - n) 0
    ∧ (cA.size ≤ 0 → alookup cA.evictList k = none →
        (PartOne.AddWithExp cA k vA e now).2 = true)
    ∧ (cB.size ≤ 0 → alookup cB.evictList k = none →
        (PartTwo.Add cB k vB now).2 = true) := by
  refine ⟨rfl, rfl, rfl, rfl, ?_, ?_⟩
  · intro hs hf
    have hev : decide (((((k, vA) :: cA.evictList).length : Nat) : Int)
        > cA.size) = true := by
      simp only [List.length_cons, decide_eq_true_eq]
      push_cast
      omega
    simp only [PartOne.AddWithExp, hf, hev]
  · intro hs hf
    have hev : decide (((((k, vB) :: cB.evictList).length : Nat) : Int)
        > cB.size) = true := by
      simp only [List.length_cons, decide_eq_true_eq]
      push_cast
      omega
    simp only [PartTwo.Add, hf, hev]

/-- C10 witness: the theorem applied to caches whose stored capacity is 0
and -2; inserting a fresh key reports an eviction. -/
theorem c10_resize_unchecked_witness :
    ((⟨0, [], 0, [], []⟩ : PartOne.LRU Nat Nat).size ≤ 0)
    ∧ alookup (⟨0, [], 0, [], []⟩ : PartOne.LRU Nat Nat).evictList 1 = none
    ∧ (PartOne.AddWithExp (⟨0, [], 0, [], []⟩ :
        PartOne.LRU Nat Nat) 1 10 0 0).2 = true
    ∧ (PartTwo.Add (⟨-2, [], 0, [], false, []⟩ :
        PartTwo.LRU Nat Nat) 1 10 0).2 = true := by
  refine ⟨by decide, by decide, ?_, ?_⟩
  · exact (c10_resize_unchecked (⟨0, [], 0, [], []⟩ : PartOne.LRU Nat Nat)
      (⟨-2, [], 0, [], false, []⟩ : PartTwo.LRU Nat Nat)
      0 1 10 10 0 0).2.2.2.2.1 (by decide) (by decide)
  · exact (c10_resize_unchecked (⟨0, [], 0, [], []⟩ : PartOne.LRU Nat Nat)
      (⟨-2, [], 0, [], false, []⟩ : PartTwo.LRU Nat Nat)
      0 1 10 10 0 0).2.2.2.2.2 (by decide) (by decide)

end GolangLru
